import Mathlib

/-!
Chapter presentation pipeline (`downloader/read.go`).

A shallow embedding of `UpscaleImage`, `bufferToFile`, `fileToBuffer`, `Read`
and `openRead`.  The program is effectful, so every function takes the state
of the outside world (`St`: the files of the file system and the position in
the stream of random temp-file names), returns the new one, and returns the
calls it made, in chronological order, as a list of `Event`s.  The
collaborators that `read.go` only calls (configuration, source, converter,
`open`, `history`, the external programs and the faults of the operating
system) are the fields of `World`.

Calls to the logger and the `fmt.Printf` of the enhancer's captured output
have no influence on control flow or on any value and are left out.
-/

namespace Downloader

/-- A Go `error` value that is not nil, represented by its message. -/
abbrev Err := String

/-- The unread bytes of a `bytes.Buffer`, or the contents of a file. -/
abbrev Bytes := List UInt8

/-- Modelled from the spec: the declaration of `source.Page` is not in the
source file.  A page has raw byte content (replaced in place after
enhancement) and a file-extension hint; its ordinal is its index.  `Contents`
are the unread bytes of the page's buffer. -/
structure Page where
  Contents : Bytes
  Extension : String
deriving DecidableEq, Repr

/-- Modelled from the spec: the declaration of `source.Chapter` is not in the
source file.  A chapter has a display name, a source URL and an ordered
sequence of pages which `Read` mutates in place (`Pages` holds references, so
the assignment to `page.Contents` in the loop is visible in the chapter). -/
structure Chapter where
  Name : String
  URL : String
  Pages : List Page
deriving DecidableEq, Repr

/-- The files that exist, each with its contents; at most the first entry for
a name counts. -/
abbrev FS := List (String × Bytes)

/-- Contents of the file at `p`, if it exists. -/
def fsRead (fs : FS) (p : String) : Option Bytes :=
  (fs.find? (fun f => f.1 = p)).map (fun f => f.2)

/-- The file system without the file at `p`. -/
def fsRemove (fs : FS) (p : String) : FS :=
  fs.filter (fun f => f.1 ≠ p)

/-- The file system in which the file at `p` holds exactly `b`. -/
def fsWrite (fs : FS) (p : String) (b : Bytes) : FS :=
  (p, b) :: fsRemove fs p

/-- One call made by the pipeline, with what it returned. -/
inductive Event where
  | progress (msg : String)
  | startWith (url browser : String) (err : Option Err)
  | isDownloaded (res : Bool)
  | chapterPath (path : Option String)
  | pagesOf (err : Option Err)
  | downloadPages (force : Bool) (err : Option Err)
  | tempFile (pattern : String) (name : Option String)
  | writeTo (name : String) (err : Option Err)
  | cmdRun (program : String) (args : List String) (err : Option Err)
  | readFile (name : String) (data : Option Bytes)
  | remove (name : String)
  | converterGet (format : String) (err : Option Err)
  | saveTemp (chapter : Chapter) (path : Option String)
  | goHistorySave (err : Option Err)
  | runWith (path reader : String) (err : Option Err)
deriving DecidableEq, Repr

/-- A call of `ioutil.TempFile` (the start of a `bufferToFile`). -/
def Event.isTempFile : Event → Bool
  | .tempFile _ _ => true
  | _ => false

/-- A run of an external program by `cmd.Run` (an `UpscaleImage`). -/
def Event.isCmdRun : Event → Bool
  | .cmdRun _ _ _ => true
  | _ => false

/-- A call of `ioutil.ReadFile` (a `fileToBuffer`). -/
def Event.isReadFile : Event → Bool
  | .readFile _ _ => true
  | _ => false

/-- A call made by staging or enhancement. -/
def Event.isStaging : Event → Bool
  | .tempFile _ _ => true
  | .writeTo _ _ => true
  | .cmdRun _ _ _ => true
  | .readFile _ _ => true
  | _ => false

/-- A call of the source: `PagesOf` or `DownloadPages`. -/
def Event.isFetch : Event → Bool
  | .pagesOf _ => true
  | .downloadPages _ _ => true
  | _ => false

/-- A call of the converter registry or of a converter. -/
def Event.isConverter : Event → Bool
  | .converterGet _ _ => true
  | .saveTemp _ _ => true
  | _ => false

/-- A launch by `open.RunWith`. -/
def Event.isRunWith : Event → Bool
  | .runWith _ _ _ => true
  | _ => false

/-- A question to the chapter about its downloaded state. -/
def Event.isQuery : Event → Bool
  | .isDownloaded _ => true
  | .chapterPath _ => true
  | _ => false

/-- The strings passed to the progress callback, in order. -/
def progressReports : List Event → List String
  | [] => []
  | .progress msg :: rest => msg :: progressReports rest
  | _ :: rest => progressReports rest

/-- State of the outside world. -/
structure St where
  fs : FS
  rng : Nat
deriving DecidableEq, Repr

/-- What `chapter.DownloadPages` did: the strings it passed to the progress
callback, its error, and the chapter with the page bodies filled in. -/
structure Download where
  reports : List String
  err : Option Err
  chapter : Chapter

/-- The collaborators of the pipeline.  The configuration fields are the
`viper` keys that `read.go` reads. -/
structure World where
  readerReadInBrowser : Bool
  readerBrowser : String
  downloaderReadDownloaded : Bool
  formatsUse : String
  readerPDF : String
  readerCBZ : String
  readerZIP : String
  raderPlain : String
  historySaveOnRead : Bool
  /-- Result of `open.StartWith(url, browser)`. -/
  startWith : String → String → Option Err
  /-- Result of `chapter.IsDownloaded()`. -/
  isDownloaded : Chapter → Bool
  /-- Result of `chapter.Path(false)`. -/
  chapterPath : Chapter → Except Err String
  /-- Result of `chapter.Source().PagesOf(chapter)` and the chapter after it. -/
  pagesOf : Chapter → Except Err (List Page) × Chapter
  /-- Behaviour of `chapter.DownloadPages(true, progress)`. -/
  downloadPages : Chapter → Download
  /-- Value of `os.TempDir()`. -/
  tempDir : String
  /-- The stream of random strings used for temp-file names. -/
  nextRandom : Nat → String
  /-- A failure of creating a file that does not exist yet. -/
  openFault : String → Option Err
  /-- A failure of writing the given bytes to the named file: how many bytes
  were written before the error, and the error. -/
  writeFault : String → Bytes → Option (Nat × Err)
  /-- Running an external program with arguments: what it does to the files
  and whether `cmd.Run` reports an error. -/
  exec : String → List String → FS → FS × Option Err
  /-- Error of `converter.Get(format)`. -/
  converterGet : String → Option Err
  /-- Result of `SaveTemp(chapter)` of the converter for the format. -/
  saveTemp : String → Chapter → Except Err String
  /-- Value of `style.Fg(color.Yellow)(s)`. -/
  styleYellow : String → String
  /-- Value of `style.Faint(s)`. -/
  styleFaint : String → String
  /-- Value of `chapter.SizeHuman()`. -/
  sizeHuman : Chapter → String
  /-- Result of `open.RunWith(path, reader)`. -/
  runWith : String → String → Option Err
  /-- Result of `history.Save(chapter)`. -/
  historySave : Chapter → Option Err

/-- Modelled from the spec: `constant.FormatPDF` is declared outside the
source file; the supported formats are pdf, cbz, zip and plain. -/
def FormatPDF : String := "pdf"

/-- Modelled from the spec: `constant.FormatCBZ` is declared outside the
source file. -/
def FormatCBZ : String := "cbz"

/-- Modelled from the spec: `constant.FormatZIP` is declared outside the
source file. -/
def FormatZIP : String := "zip"

/-- Modelled from the spec: `constant.FormatPlain` is declared outside the
source file. -/
def FormatPlain : String := "plain"

/-! ## Library functions used by `read.go` -/

/-- Go `strings.HasSuffix`. -/
def hasSuffix (s suf : String) : Bool :=
  suf.data.isSuffixOf s.data

/-- Go `strings.TrimSuffix`: `s` without the trailing `suf`, or `s` itself
when it does not end in `suf`. -/
def trimSuffix (s suf : String) : String :=
  if hasSuffix s suf then ⟨s.data.take (s.data.length - suf.data.length)⟩ else s

/-- The split of a temp-file pattern at its last `*` (Go `prefixAndSuffix`);
a pattern with a path separator is refused. -/
def prefixAndSuffix (pattern : String) : Except Err (String × String) :=
  if '/' ∈ pattern.data then .error "pattern contains path separator"
  else
    let tail := (pattern.data.reverse.takeWhile (fun c => c ≠ '*')).reverse
    if tail.length = pattern.data.length then .ok (pattern, "")
    else .ok (⟨pattern.data.take (pattern.data.length - tail.length - 1)⟩, ⟨tail⟩)

/-- Go `joinPath` of `os.CreateTemp`: the directory, a separator unless the
directory ends in one, and the name. -/
def joinPath (dir name : String) : String :=
  if dir.data.getLast? = some '/' then dir ++ name else dir ++ "/" ++ name

/-- The retry loop of `os.CreateTemp`: the next random name that does not
exist is created empty (`O_CREATE|O_EXCL`); an existing name is retried, at
most `fuel` times in all. -/
def createTempLoop (w : World) (pre suf : String) : Nat → St → Except Err String × St
  | 0, s => (.error ("createtemp " ++ pre ++ "*" ++ suf ++ ": file exists"), s)
  | fuel + 1, s =>
    let name := pre ++ w.nextRandom s.rng ++ suf
    if (fsRead s.fs name).isSome then createTempLoop w pre suf fuel ⟨s.fs, s.rng + 1⟩
    else
      match w.openFault name with
      | some e => (.error e, ⟨s.fs, s.rng + 1⟩)
      | none => (.ok name, ⟨fsWrite s.fs name [], s.rng + 1⟩)

/-- Go `ioutil.TempFile("", pattern)`: a new file in the temp directory. -/
def tempFile (w : World) (pattern : String) (s : St) : Except Err String × St × List Event :=
  match prefixAndSuffix pattern with
  | .error e => (.error e, s, [.tempFile pattern none])
  | .ok (pre, suf) =>
    match createTempLoop w (joinPath w.tempDir pre) suf 10000 s with
    | (.error e, s1) => (.error e, s1, [.tempFile pattern none])
    | (.ok name, s1) => (.ok name, s1, [.tempFile pattern (some name)])

/-- Go `buf.WriteTo(file)`: an empty buffer writes nothing; otherwise the
unread bytes are written with one `Write`, the buffer loses what was written,
and a complete write leaves it empty.  Returns the error and the buffer. -/
def writeTo (w : World) (buf : Bytes) (name : String) (s : St) :
    Option Err × Bytes × St × List Event :=
  if buf = [] then (none, [], s, [.writeTo name none])
  else
    match w.writeFault name buf with
    | some (m, e) =>
      (some e, buf.drop m, { s with fs := fsWrite s.fs name (buf.take m) }, [.writeTo name (some e)])
    | none => (none, [], { s with fs := fsWrite s.fs name buf }, [.writeTo name none])

/-- Go `os.Remove(name)`, its error ignored. -/
def osRemove (name : String) (s : St) : St :=
  { s with fs := fsRemove s.fs name }

/-- The deferred calls of a function, run at its return, last registered
first.  The list holds the most recently deferred name at its head. -/
def runDefers : List String → St → St
  | [], s => s
  | name :: rest, s => runDefers rest (osRemove name s)

/-! ## The functions of `read.go` -/

/-- Program name of the enhancer. -/
def enhancerProgram : String := "waifu2x-ncnn-vulkan"

/-- The argument list of the enhancer. -/
def enhancerArgs (inputPath outputPath : String) : List String :=
  ["-i", inputPath, "-o", outputPath, "-n", "3", "-s", "4"]

/-- `UpscaleImage(inputPath, outputPath)`: runs the enhancer and returns the
error of `cmd.Run`. -/
def UpscaleImage (w : World) (inputPath outputPath : String) (s : St) :
    Option Err × St × List Event :=
  let r := w.exec enhancerProgram (enhancerArgs inputPath outputPath) s.fs
  (r.2, { s with fs := r.1 }, [.cmdRun enhancerProgram (enhancerArgs inputPath outputPath) r.2])

/-- `bufferToFile(buf, extension)`: returns the path of the new file (or the
error), and the buffer as the call leaves it. -/
def bufferToFile (w : World) (buf : Bytes) (extension : String) (s : St) :
    Except Err String × Bytes × St × List Event :=
  match tempFile w ("page-*." ++ extension) s with
  | (.error e, s1, ev1) => (.error e, buf, s1, ev1)
  | (.ok name, s1, ev1) =>
    match writeTo w buf name s1 with
    | (some e, buf1, s2, ev2) => (.error e, buf1, s2, ev1 ++ ev2)
    | (none, buf1, s2, ev2) => (.ok name, buf1, s2, ev1 ++ ev2)

/-- `fileToBuffer(filePath)`: a buffer holding the whole file. -/
def fileToBuffer (filePath : String) (s : St) : Except Err Bytes × List Event :=
  match fsRead s.fs filePath with
  | none => (.error ("open " ++ filePath ++ ": no such file or directory"), [.readFile filePath none])
  | some data => (.ok data, [.readFile filePath (some data)])

/-- The output path that `Read` derives from a staged input path. -/
def outputPathOf (inputPath : String) : String :=
  trimSuffix inputPath ".jpeg" ++ "_upscaled..jpeg"

/-- Result of the page loop of `Read`: the error that ended it (if any), the
pages as the loop leaves them, the world, the removals deferred so far (most
recent first), and the calls made. -/
structure LoopResult where
  err : Option Err
  pages : List Page
  st : St
  defers : List String
  events : List Event
deriving DecidableEq, Repr

/-- The loop `for _, page := range chapter.Pages` of `Read`; `ds` are the
removals deferred before it. -/
def enhanceLoop (w : World) : List Page → St → List String → LoopResult
  | [], s, ds => ⟨none, [], s, ds, []⟩
  | page :: rest, s, ds =>
    match bufferToFile w page.Contents page.Extension s with
    | (.error e, buf, s1, ev1) => ⟨some e, { page with Contents := buf } :: rest, s1, ds, ev1⟩
    | (.ok inputPath, buf, s1, ev1) =>
      match UpscaleImage w inputPath (outputPathOf inputPath) s1 with
      | (some e, s2, ev2) =>
        ⟨some e, { page with Contents := buf } :: rest, s2, inputPath :: ds, ev1 ++ ev2⟩
      | (none, s2, ev2) =>
        match fileToBuffer (outputPathOf inputPath) s2 with
        | (.error e, ev3) =>
          ⟨some e, { page with Contents := buf } :: rest, s2, inputPath :: ds, ev1 ++ ev2 ++ ev3⟩
        | (.ok upscaledBuffer, ev3) =>
          let r := enhanceLoop w rest s2 (outputPathOf inputPath :: inputPath :: ds)
          { r with
            pages := { page with Contents := upscaledBuffer } :: r.pages
            events := ev1 ++ ev2 ++ ev3 ++ r.events }

/-- The reader configured for the active output format (the `switch` of
`openRead`). -/
def readerFor (w : World) : String :=
  if w.formatsUse = FormatPDF then w.readerPDF
  else if w.formatsUse = FormatCBZ then w.readerCBZ
  else if w.formatsUse = FormatZIP then w.readerZIP
  else if w.formatsUse = FormatPlain then w.raderPlain
  else ""

/-- `openRead(path, chapter, progress)`: its error and its calls.  The
goroutine that saves the history is recorded where it is started, with the
result its body gets. -/
def openRead (w : World) (path : String) (chapter : Chapter) : Option Err × List Event :=
  let ev1 := if w.historySaveOnRead then [Event.goHistorySave (w.historySave chapter)] else []
  let reader := readerFor w
  let ev2 := if reader ≠ "" then [Event.progress ("Opening " ++ reader)] else [Event.progress "Opening"]
  match w.runWith path reader with
  | some e =>
    (some ("could not open " ++ path ++ " with " ++ reader ++ ": " ++ e),
      ev1 ++ ev2 ++ [.runWith path reader (some e)])
  | none => (none, ev1 ++ ev2 ++ [.runWith path reader none])

/-- What `Read` returns and leaves behind, and the calls it made. -/
structure Outcome where
  err : Option Err
  chapter : Chapter
  st : St
  events : List Event
deriving DecidableEq, Repr

/-- The text of the progress report before conversion. -/
def convertingMessage (w : World) (pages : List Page) (chapter : Chapter) : String :=
  "Converting " ++ toString pages.length ++ " pages to " ++ w.styleYellow w.formatsUse ++ " "
    ++ w.styleFaint (w.sizeHuman chapter)

/-- A return of `Read` after the page loop has started: the deferred removals
registered by the loop run, last registered first. -/
def returnDeferred (r : LoopResult) (chapter : Chapter) (err : Option Err) (events : List Event) :
    Outcome :=
  ⟨err, chapter, runDefers r.defers r.st, events ++ r.defers.map Event.remove⟩

/-- The part of `Read` after the page loop: conversion, presentation and the
report "Done".  Returns the error of `Read` and the calls made. -/
def convertAndOpen (w : World) (pages : List Page) (chapter : Chapter) : Option Err × List Event :=
  match w.converterGet w.formatsUse with
  | some e => (some e, [.converterGet w.formatsUse (some e)])
  | none =>
    let ev1 := [Event.converterGet w.formatsUse none, .progress (convertingMessage w pages chapter)]
    match w.saveTemp w.formatsUse chapter with
    | .error e => (some e, ev1 ++ [.saveTemp chapter none])
    | .ok path =>
      match openRead w path chapter with
      | (some e, ev2) => (some e, ev1 ++ [.saveTemp chapter (some path)] ++ ev2)
      | (none, ev2) => (none, ev1 ++ [.saveTemp chapter (some path)] ++ ev2 ++ [.progress "Done"])

/-- The calls of a fetch whose page listing succeeds: the report "Getting
pages", `PagesOf`, the reports forwarded by `DownloadPages`, and its return. -/
def fetchEvents (d : Download) : List Event :=
  [Event.progress "Getting pages", .pagesOf none] ++ d.reports.map Event.progress
    ++ [.downloadPages true d.err]

/-- `Read` from the progress report "Getting pages" on: fetch, page loop,
conversion and presentation. -/
def fetchRead (w : World) (chapter : Chapter) (s : St) : Outcome :=
  match w.pagesOf chapter with
  | (.error e, ch1) => ⟨some e, ch1, s, [.progress "Getting pages", .pagesOf (some e)]⟩
  | (.ok pages, ch1) =>
    let d := w.downloadPages ch1
    let ev1 := fetchEvents d
    match d.err with
    | some e => ⟨some e, d.chapter, s, ev1⟩
    | none =>
      let r := enhanceLoop w d.chapter.Pages s []
      let ch2 := { d.chapter with Pages := r.pages }
      match r.err with
      | some e => returnDeferred r ch2 (some e) (ev1 ++ r.events)
      | none =>
        let c := convertAndOpen w pages ch2
        returnDeferred r ch2 c.1 (ev1 ++ r.events ++ c.2)

/-- The outcome `o` of the rest of `Read`, after the calls `events`. -/
def Outcome.after (events : List Event) (o : Outcome) : Outcome :=
  { o with events := events ++ o.events }

/-- `Read(chapter, progress)`. -/
def Read (w : World) (chapter : Chapter) (s : St) : Outcome :=
  if w.readerReadInBrowser then
    let r := w.startWith chapter.URL w.readerBrowser
    ⟨r, chapter, s, [.startWith chapter.URL w.readerBrowser r]⟩
  else if w.downloaderReadDownloaded then
    if w.isDownloaded chapter then
      match w.chapterPath chapter with
      | .ok path =>
        let r := openRead w path chapter
        ⟨r.1, chapter, s, [.isDownloaded true, .chapterPath (some path)] ++ r.2⟩
      | .error _ =>
        (fetchRead w chapter s).after [.isDownloaded true, .chapterPath none]
    else (fetchRead w chapter s).after [.isDownloaded false]
  else fetchRead w chapter s

/-- The calls of one page that is staged, enhanced and read back: `inp` is
the staged input path and `data` the bytes read back. -/
def stagedEvents (extension inp : String) (data : Bytes) : List Event :=
  [.tempFile ("page-*." ++ extension) (some inp), .writeTo inp none,
    .cmdRun enhancerProgram (enhancerArgs inp (outputPathOf inp)) none,
    .readFile (outputPathOf inp) (some data)]

/-! ## Concrete worlds for evaluation -/

/-- A world in which every collaborator succeeds: format "cbz", reader "foo",
an enhancer that writes the byte `7` to its output path. -/
def okWorld : World where
  readerReadInBrowser := false
  readerBrowser := "firefox"
  downloaderReadDownloaded := false
  formatsUse := "cbz"
  readerPDF := "zathura"
  readerCBZ := "foo"
  readerZIP := "unzipper"
  raderPlain := "viewer"
  historySaveOnRead := false
  startWith := fun _ _ => none
  isDownloaded := fun _ => false
  chapterPath := fun _ => .error "not downloaded"
  pagesOf := fun ch => (.ok ch.Pages, ch)
  downloadPages := fun ch => ⟨["Downloading"], none, ch⟩
  tempDir := "/tmp"
  nextRandom := fun n => toString n
  openFault := fun _ => none
  writeFault := fun _ _ => none
  exec := fun _ args fs => (fsWrite fs (args.getD 3 "") [7], none)
  converterGet := fun _ => none
  saveTemp := fun _ _ => .ok "/tmp/chapter.cbz"
  styleYellow := fun x => x
  styleFaint := fun x => x
  sizeHuman := fun _ => "3 B"
  runWith := fun _ _ => none
  historySave := fun _ => none

/-- A chapter of three pages. -/
def chapter3 : Chapter :=
  ⟨"ch", "http://example.org/ch", [⟨[1], "jpeg"⟩, ⟨[2], "png"⟩, ⟨[3], "jpeg"⟩]⟩

/-- The world with no files. -/
def st0 : St := ⟨[], 0⟩

/-- The world of `okWorld` with read-in-browser enabled. -/
def browserWorld : World :=
  { okWorld with readerReadInBrowser := true }

/-- The world of `okWorld` in which downloaded chapters are read from disk and
the chapter is downloaded at "/downloads/ch.cbz". -/
def shortcutWorld : World :=
  { okWorld with
    downloaderReadDownloaded := true
    isDownloaded := fun _ => true
    chapterPath := fun _ => .ok "/downloads/ch.cbz" }

/-- The world of `okWorld` whose enhancer exits non-zero on the second staged
page and writes nothing for it. -/
def failWorld : World :=
  { okWorld with
    exec := fun _ args fs =>
      if args.getD 1 "" = "/tmp/page-1.png" then (fs, some "exit status 1")
      else (fsWrite fs (args.getD 3 "") [7], none) }

/-- The world of `okWorld` whose enhancer writes its output file and then
exits non-zero. -/
def leakWorld : World :=
  { okWorld with exec := fun _ args fs => (fsWrite fs (args.getD 3 "") [7], some "exit status 1") }

/-- The world of `okWorld` in which writing to a file fails before the first
byte (a full disk). -/
def fullDiskWorld : World :=
  { okWorld with writeFault := fun _ _ => some (0, "no space left on device") }

/-- The world of `okWorld` without the enhancer program: running it fails and
changes no file. -/
def noEnhancerWorld : World :=
  { okWorld with exec := fun _ _ fs => (fs, some "executable file not found") }

/-- A chapter of one page. -/
def chapter1 : Chapter :=
  ⟨"ch", "http://example.org/ch", [⟨[1], "jpeg"⟩]⟩

/-! ## The staging store -/

theorem fsRead_fsWrite (fs : FS) (p : String) (b : Bytes) : fsRead (fsWrite fs p b) p = some b := by
  simp [fsRead, fsWrite]

theorem createTempLoop_ok (w : World) (pre suf : String) :
    ∀ (fuel : Nat) (s s1 : St) (name : String),
      createTempLoop w pre suf fuel s = (.ok name, s1) → fsRead s1.fs name = some [] := by
  intro fuel
  induction fuel with
  | zero => intro s s1 name h; simp [createTempLoop] at h
  | succ n ih =>
    intro s s1 name h
    simp only [createTempLoop] at h
    split at h
    · exact ih _ _ _ h
    · split at h
      · simp at h
      · simp only [Prod.mk.injEq, Except.ok.injEq] at h
        obtain ⟨h1, h2⟩ := h
        subst h1; subst h2
        exact fsRead_fsWrite _ _ _

theorem tempFile_ok (w : World) (pattern : String) (s s1 : St) (name : String) (evs : List Event)
    (h : tempFile w pattern s = (.ok name, s1, evs)) :
    fsRead s1.fs name = some [] ∧ evs = [.tempFile pattern (some name)] := by
  simp only [tempFile] at h
  split at h
  · simp at h
  · split at h
    · simp at h
    · rename_i hc
      simp only [Prod.mk.injEq, Except.ok.injEq] at h
      obtain ⟨h1, h2, h3⟩ := h
      subst h1; subst h2; subst h3
      exact ⟨createTempLoop_ok _ _ _ _ _ _ _ hc, rfl⟩

theorem tempFile_error (w : World) (pattern : String) (s s1 : St) (e : Err) (evs : List Event)
    (h : tempFile w pattern s = (.error e, s1, evs)) : evs = [.tempFile pattern none] := by
  simp only [tempFile] at h
  split at h
  · simp only [Prod.mk.injEq] at h; exact h.2.2.symm
  · split at h
    · simp only [Prod.mk.injEq] at h; exact h.2.2.symm
    · simp at h

theorem bufferToFile_ok (w : World) (buf : Bytes) (ext : String) (s s1 : St) (p : String)
    (buf1 : Bytes) (evs : List Event) (h : bufferToFile w buf ext s = (.ok p, buf1, s1, evs)) :
    fsRead s1.fs p = some buf ∧ buf1 = [] ∧
      evs = [.tempFile ("page-*." ++ ext) (some p), .writeTo p none] := by
  simp only [bufferToFile] at h
  split at h
  · simp at h
  · rename_i name s2 ev1 ht
    obtain ⟨hr, hev⟩ := tempFile_ok _ _ _ _ _ _ ht
    split at h
    · simp at h
    · rename_i hw
      simp only [writeTo] at hw
      split at hw
      · rename_i hb
        simp only [Prod.mk.injEq, Except.ok.injEq] at hw h
        obtain ⟨-, h2, h3, h4⟩ := hw
        obtain ⟨h5, h6, h7, h8⟩ := h
        subst h2 h3 h4 h5 h6 h7 h8 hev hb
        exact ⟨hr, rfl, rfl⟩
      · split at hw
        · simp at hw
        · simp only [Prod.mk.injEq, Except.ok.injEq] at hw h
          obtain ⟨-, h2, h3, h4⟩ := hw
          obtain ⟨h5, h6, h7, h8⟩ := h
          subst h2 h3 h4 h5 h6 h7 h8 hev
          exact ⟨fsRead_fsWrite _ _ _, rfl, rfl⟩

theorem bufferToFile_error (w : World) (buf : Bytes) (ext : String) (s s1 : St) (e : Err)
    (buf1 : Bytes) (evs : List Event) (h : bufferToFile w buf ext s = (.error e, buf1, s1, evs)) :
    evs = [.tempFile ("page-*." ++ ext) none] ∨
      ∃ name, evs = [.tempFile ("page-*." ++ ext) (some name), .writeTo name (some e)] := by
  simp only [bufferToFile] at h
  split at h
  · rename_i ht
    simp only [Prod.mk.injEq] at h
    left
    rw [← h.2.2.2]
    exact tempFile_error _ _ _ _ _ _ ht
  · rename_i name s2 ev1 ht
    obtain ⟨-, hev⟩ := tempFile_ok _ _ _ _ _ _ ht
    right
    refine ⟨name, ?_⟩
    split at h
    · rename_i hw
      simp only [writeTo] at hw
      split at hw
      · simp at hw
      · split at hw
        · simp only [Prod.mk.injEq, Option.some.injEq, Except.error.injEq] at hw h
          obtain ⟨h1, -, -, h4⟩ := hw
          obtain ⟨h5, -, -, h8⟩ := h
          subst h1 h4 h5 h8 hev
          rfl
        · simp at hw
    · simp at h

/-! ## The page loop -/

/-- How one pass of the page loop can go: the four early returns and the
continuation with the next page. -/
theorem enhanceLoop_cons (w : World) (page : Page) (rest : List Page) (s : St) (ds : List String) :
    (∃ e, (enhanceLoop w (page :: rest) s ds).err = some e ∧
        (enhanceLoop w (page :: rest) s ds).events = [.tempFile ("page-*." ++ page.Extension) none] ∧
        (enhanceLoop w (page :: rest) s ds).defers = ds) ∨
    (∃ e name, (enhanceLoop w (page :: rest) s ds).err = some e ∧
        (enhanceLoop w (page :: rest) s ds).events =
          [.tempFile ("page-*." ++ page.Extension) (some name), .writeTo name (some e)] ∧
        (enhanceLoop w (page :: rest) s ds).defers = ds) ∨
    (∃ e inp, (enhanceLoop w (page :: rest) s ds).err = some e ∧
        (enhanceLoop w (page :: rest) s ds).events =
          [.tempFile ("page-*." ++ page.Extension) (some inp), .writeTo inp none,
            .cmdRun enhancerProgram (enhancerArgs inp (outputPathOf inp)) (some e)] ∧
        (enhanceLoop w (page :: rest) s ds).defers = inp :: ds) ∨
    (∃ e inp, (enhanceLoop w (page :: rest) s ds).err = some e ∧
        (enhanceLoop w (page :: rest) s ds).events =
          [.tempFile ("page-*." ++ page.Extension) (some inp), .writeTo inp none,
            .cmdRun enhancerProgram (enhancerArgs inp (outputPathOf inp)) none,
            .readFile (outputPathOf inp) none] ∧
        (enhanceLoop w (page :: rest) s ds).defers = inp :: ds) ∨
    (∃ inp data s1 s2, (UpscaleImage w inp (outputPathOf inp) s1).1 = none ∧
        (UpscaleImage w inp (outputPathOf inp) s1).2.1 = s2 ∧
        fsRead s2.fs (outputPathOf inp) = some data ∧
        enhanceLoop w (page :: rest) s ds =
          { enhanceLoop w rest s2 (outputPathOf inp :: inp :: ds) with
            pages := { page with Contents := data }
              :: (enhanceLoop w rest s2 (outputPathOf inp :: inp :: ds)).pages
            events := stagedEvents page.Extension inp data
              ++ (enhanceLoop w rest s2 (outputPathOf inp :: inp :: ds)).events }) := by
  rcases hb : bufferToFile w page.Contents page.Extension s with ⟨res, buf, s1, ev1⟩
  cases res with
  | error e =>
    rcases bufferToFile_error _ _ _ _ _ _ _ _ hb with h1 | ⟨name, h1⟩
    · left
      exact ⟨e, by simp [enhanceLoop, hb], by simp [enhanceLoop, hb, h1], by simp [enhanceLoop, hb]⟩
    · right; left
      exact ⟨e, name, by simp [enhanceLoop, hb], by simp [enhanceLoop, hb, h1],
        by simp [enhanceLoop, hb]⟩
  | ok inp =>
    obtain ⟨-, -, h1⟩ := bufferToFile_ok _ _ _ _ _ _ _ _ hb
    right; right
    rcases hu : (w.exec enhancerProgram (enhancerArgs inp (outputPathOf inp)) s1.fs) with ⟨fs2, ue⟩
    cases ue with
    | some e =>
      left
      exact ⟨e, inp, by simp [enhanceLoop, hb, UpscaleImage, hu],
        by simp [enhanceLoop, hb, UpscaleImage, hu, h1], by simp [enhanceLoop, hb, UpscaleImage, hu]⟩
    | none =>
      right
      cases hf : fsRead fs2 (outputPathOf inp) with
      | none =>
        left
        exact ⟨_, inp, by simp [enhanceLoop, hb, UpscaleImage, hu, fileToBuffer, hf]; rfl,
          by simp [enhanceLoop, hb, UpscaleImage, hu, h1, fileToBuffer, hf],
          by simp [enhanceLoop, hb, UpscaleImage, hu, fileToBuffer, hf]⟩
      | some data =>
        right
        refine ⟨inp, data, s1, ⟨fs2, s1.rng⟩, by simp [UpscaleImage, hu], by simp [UpscaleImage, hu],
          hf, ?_⟩
        simp [enhanceLoop, hb, UpscaleImage, hu, h1, fileToBuffer, hf, stagedEvents]

theorem enhanceLoop_staging (w : World) : ∀ (ps : List Page) (s : St) (ds : List String),
    ∀ ev ∈ (enhanceLoop w ps s ds).events, ev.isStaging = true := by
  intro ps
  induction ps with
  | nil => intro s ds ev h; simp [enhanceLoop] at h
  | cons page rest ih =>
    intro s ds ev h
    rcases enhanceLoop_cons w page rest s ds with ⟨e, -, h2, -⟩ | ⟨e, n, -, h2, -⟩ |
      ⟨e, n, -, h2, -⟩ | ⟨e, n, -, h2, -⟩ | ⟨inp, data, s1, s2, -, -, -, h2⟩
    · rw [h2] at h; simp at h; subst h; rfl
    · rw [h2] at h; simp at h; rcases h with h | h <;> subst h <;> rfl
    · rw [h2] at h; simp at h; rcases h with h | h | h <;> subst h <;> rfl
    · rw [h2] at h; simp at h; rcases h with h | h | h | h <;> subst h <;> rfl
    · rw [h2] at h
      simp only [stagedEvents, List.mem_append, List.mem_cons, List.mem_singleton,
        List.not_mem_nil, or_false] at h
      rcases h with (h | h | h | h) | h
      · subst h; rfl
      · subst h; rfl
      · subst h; rfl
      · subst h; rfl
      · exact ih _ _ _ h

/-- A page loop that ends without error has staged, enhanced and read back
every page, in order: `staged` lists for each page its staged input path and
the bytes read back from the derived output path. -/
theorem enhanceLoop_ok (w : World) : ∀ (ps : List Page) (s : St) (ds : List String),
    (enhanceLoop w ps s ds).err = none →
    ∃ staged : List (String × Bytes), staged.length = ps.length ∧
      (enhanceLoop w ps s ds).pages =
        List.zipWith (fun p x => { p with Contents := x.2 }) ps staged ∧
      (enhanceLoop w ps s ds).events =
        (List.zipWith (fun p x => stagedEvents p.Extension x.1 x.2) ps staged).flatten ∧
      (enhanceLoop w ps s ds).defers
        = (staged.reverse.flatMap fun x => [outputPathOf x.1, x.1]) ++ ds ∧
      ∀ x ∈ staged, ∃ sb, (UpscaleImage w x.1 (outputPathOf x.1) sb).1 = none ∧
        fsRead (UpscaleImage w x.1 (outputPathOf x.1) sb).2.1.fs (outputPathOf x.1) = some x.2 := by
  intro ps
  induction ps with
  | nil => intro s ds _; exact ⟨[], by simp [enhanceLoop]⟩
  | cons page rest ih =>
    intro s ds h
    rcases enhanceLoop_cons w page rest s ds with ⟨e, h1, -⟩ | ⟨e, n, h1, -⟩ |
      ⟨e, n, h1, -⟩ | ⟨e, n, h1, -⟩ | ⟨inp, data, s1, s2, hu1, hu2, hf, h2⟩
    · rw [h1] at h; simp at h
    · rw [h1] at h; simp at h
    · rw [h1] at h; simp at h
    · rw [h1] at h; simp at h
    · rw [h2] at h ⊢
      obtain ⟨staged, hl, hp, he, hd, hx⟩ := ih s2 (outputPathOf inp :: inp :: ds) h
      refine ⟨(inp, data) :: staged, by simp [hl], by simp [hp], by simp [he], by simp [hd], ?_⟩
      intro x hx1
      rcases List.mem_cons.1 hx1 with hx1 | hx1
      · subst hx1
        exact ⟨s1, hu1, by rw [hu2]; exact hf⟩
      · exact hx x hx1

/-- If the enhancer run number `k` (counted from 0) of the page loop fails,
the loop ends there with that error: page `k` exists, and exactly `k + 1`
pages have been staged and `k + 1` enhancer runs made. -/
theorem enhanceLoop_cmdRun_failure (w : World) :
    ∀ (ps : List Page) (s : St) (ds : List String) (k : Nat) (prog : String) (args : List String)
      (e : Err),
      ((enhanceLoop w ps s ds).events.filter Event.isCmdRun)[k]?
        = some (.cmdRun prog args (some e)) →
      (enhanceLoop w ps s ds).err = some e ∧ k < ps.length ∧
        ((enhanceLoop w ps s ds).events.filter Event.isCmdRun).length = k + 1 ∧
        ((enhanceLoop w ps s ds).events.filter Event.isTempFile).length = k + 1 := by
  intro ps
  induction ps with
  | nil => intro s ds k prog args e h; simp [enhanceLoop] at h
  | cons page rest ih =>
    intro s ds k prog args e h
    rcases enhanceLoop_cons w page rest s ds with ⟨e1, h1, h2, -⟩ | ⟨e1, n, h1, h2, -⟩ |
      ⟨e1, n, h1, h2, -⟩ | ⟨e1, n, h1, h2, -⟩ | ⟨inp, data, s1, s2, -, -, -, h2⟩
    · rw [h2] at h; simp [Event.isCmdRun] at h
    · rw [h2] at h; simp [Event.isCmdRun] at h
    · rw [h2] at h ⊢
      rw [h1]
      cases k with
      | zero =>
        simp [Event.isCmdRun] at h
        simp [Event.isCmdRun, Event.isTempFile, h]
      | succ k => simp [Event.isCmdRun] at h
    · rw [h2] at h
      cases k with
      | zero => simp [Event.isCmdRun] at h
      | succ k => simp [Event.isCmdRun] at h
    · rw [h2] at h ⊢
      cases k with
      | zero => simp [Event.isCmdRun, stagedEvents] at h
      | succ k =>
        simp [Event.isCmdRun, stagedEvents] at h
        obtain ⟨h3, h4, h5, h6⟩ := ih s2 _ k prog args e h
        simp [Event.isCmdRun, Event.isTempFile, stagedEvents, h3, h4, h5, h6]

/-! ## Presentation and conversion -/

theorem openRead_events (w : World) (path : String) (chapter : Chapter) :
    (openRead w path chapter).2 =
      (if w.historySaveOnRead then [Event.goHistorySave (w.historySave chapter)] else []) ++
        [Event.progress (if readerFor w ≠ "" then "Opening " ++ readerFor w else "Opening"),
          .runWith path (readerFor w) (w.runWith path (readerFor w))] := by
  simp only [openRead]
  split <;> rename_i hr <;> simp only [hr] <;> by_cases h : readerFor w = "" <;> simp [h]

theorem openRead_not_staging (w : World) (path : String) (chapter : Chapter) :
    ∀ ev ∈ (openRead w path chapter).2,
      ev.isStaging = false ∧ ev.isFetch = false ∧ ev.isConverter = false := by
  intro ev h
  rw [openRead_events] at h
  rcases List.mem_append.1 h with h1 | h1
  · split at h1
    · simp at h1; subst h1; exact ⟨rfl, rfl, rfl⟩
    · simp at h1
  · simp at h1; rcases h1 with h1 | h1 <;> subst h1 <;> exact ⟨rfl, rfl, rfl⟩

theorem convertAndOpen_not_staging (w : World) (pages : List Page) (chapter : Chapter) :
    ∀ ev ∈ (convertAndOpen w pages chapter).2, ev.isStaging = false ∧ ev.isFetch = false := by
  intro ev h
  have ho := openRead_not_staging w
  unfold convertAndOpen at h
  split at h
  · simp at h; subst h; exact ⟨rfl, rfl⟩
  · split at h
    · simp at h
      rcases h with h | h | h <;> subst h <;> exact ⟨rfl, rfl⟩
    · rename_i path hs
      split at h
      · rename_i e ev2 hop
        have ho2 := ho path chapter
        rw [hop] at ho2
        simp at h
        rcases h with h | h | h | h
        · subst h; exact ⟨rfl, rfl⟩
        · subst h; exact ⟨rfl, rfl⟩
        · subst h; exact ⟨rfl, rfl⟩
        · exact ⟨(ho2 ev h).1, (ho2 ev h).2.1⟩
      · rename_i ev2 hop
        have ho2 := ho path chapter
        rw [hop] at ho2
        simp at h
        rcases h with h | h | h | h | h
        · subst h; exact ⟨rfl, rfl⟩
        · subst h; exact ⟨rfl, rfl⟩
        · subst h; exact ⟨rfl, rfl⟩
        · exact ⟨(ho2 ev h).1, (ho2 ev h).2.1⟩
        · subst h; exact ⟨rfl, rfl⟩

theorem convertAndOpen_saveTemp (w : World) (pages : List Page) (chapter saved : Chapter)
    (path : Option String) (h : Event.saveTemp saved path ∈ (convertAndOpen w pages chapter).2) :
    saved = chapter := by
  have ho := openRead_not_staging w
  unfold convertAndOpen at h
  split at h
  · simp at h
  · split at h
    · simp at h; exact h.1
    · rename_i p hs
      split at h
      · rename_i e ev2 hop
        have ho2 := ho p chapter
        rw [hop] at ho2
        simp at h
        rcases h with h | h
        · exact h.1
        · have := (ho2 _ h).2.2; simp [Event.isConverter] at this
      · rename_i ev2 hop
        have ho2 := ho p chapter
        rw [hop] at ho2
        simp at h
        rcases h with h | h
        · exact h.1
        · have := (ho2 _ h).2.2; simp [Event.isConverter] at this

theorem filter_isCmdRun_of_not_staging (l : List Event) (h : ∀ ev ∈ l, ev.isStaging = false) :
    l.filter Event.isCmdRun = [] := by
  rw [List.filter_eq_nil_iff]
  intro ev hev
  have := h ev hev
  cases ev <;> simp_all [Event.isStaging, Event.isCmdRun]

theorem filter_isTempFile_of_not_staging (l : List Event) (h : ∀ ev ∈ l, ev.isStaging = false) :
    l.filter Event.isTempFile = [] := by
  rw [List.filter_eq_nil_iff]
  intro ev hev
  have := h ev hev
  cases ev <;> simp_all [Event.isStaging, Event.isTempFile]

theorem progress_not_staging (l : List String) : ∀ ev ∈ l.map Event.progress, ev.isStaging = false := by
  intro ev h
  obtain ⟨m, -, rfl⟩ := List.mem_map.1 h
  rfl

theorem remove_not_staging (l : List String) : ∀ ev ∈ l.map Event.remove, ev.isStaging = false := by
  intro ev h
  obtain ⟨m, -, rfl⟩ := List.mem_map.1 h
  rfl

/-! ## The fetch path -/

/-- The ways `fetchRead` can go. -/
theorem fetchRead_cases (w : World) (chapter : Chapter) (s : St) :
    (∃ e ch1, w.pagesOf chapter = (.error e, ch1) ∧
        fetchRead w chapter s = ⟨some e, ch1, s, [.progress "Getting pages", .pagesOf (some e)]⟩) ∨
    (∃ pages ch1 e, w.pagesOf chapter = (.ok pages, ch1) ∧ (w.downloadPages ch1).err = some e ∧
        fetchRead w chapter s
          = ⟨some e, (w.downloadPages ch1).chapter, s, fetchEvents (w.downloadPages ch1)⟩) ∨
    (∃ pages ch1 e, w.pagesOf chapter = (.ok pages, ch1) ∧ (w.downloadPages ch1).err = none ∧
        (enhanceLoop w (w.downloadPages ch1).chapter.Pages s []).err = some e ∧
        fetchRead w chapter s =
          returnDeferred (enhanceLoop w (w.downloadPages ch1).chapter.Pages s [])
            { (w.downloadPages ch1).chapter with
              Pages := (enhanceLoop w (w.downloadPages ch1).chapter.Pages s []).pages }
            (some e)
            (fetchEvents (w.downloadPages ch1)
              ++ (enhanceLoop w (w.downloadPages ch1).chapter.Pages s []).events)) ∨
    (∃ pages ch1, w.pagesOf chapter = (.ok pages, ch1) ∧ (w.downloadPages ch1).err = none ∧
        (enhanceLoop w (w.downloadPages ch1).chapter.Pages s []).err = none ∧
        fetchRead w chapter s =
          returnDeferred (enhanceLoop w (w.downloadPages ch1).chapter.Pages s [])
            { (w.downloadPages ch1).chapter with
              Pages := (enhanceLoop w (w.downloadPages ch1).chapter.Pages s []).pages }
            (convertAndOpen w pages { (w.downloadPages ch1).chapter with
              Pages := (enhanceLoop w (w.downloadPages ch1).chapter.Pages s []).pages }).1
            (fetchEvents (w.downloadPages ch1)
              ++ (enhanceLoop w (w.downloadPages ch1).chapter.Pages s []).events
              ++ (convertAndOpen w pages { (w.downloadPages ch1).chapter with
                Pages := (enhanceLoop w (w.downloadPages ch1).chapter.Pages s []).pages }).2)) := by
  rcases hp : w.pagesOf chapter with ⟨res, ch1⟩
  cases res with
  | error e => left; exact ⟨e, ch1, rfl, by simp [fetchRead, hp]⟩
  | ok pages =>
    right
    cases hd : (w.downloadPages ch1).err with
    | some e => left; exact ⟨pages, ch1, e, rfl, hd, by simp [fetchRead, hp, hd]⟩
    | none =>
      right
      cases hl : (enhanceLoop w (w.downloadPages ch1).chapter.Pages s []).err with
      | some e => left; exact ⟨pages, ch1, e, rfl, hd, hl, by simp [fetchRead, hp, hd, hl]⟩
      | none => right; exact ⟨pages, ch1, rfl, hd, hl, by simp [fetchRead, hp, hd, hl]⟩

theorem fetchEvents_not_staging (d : Download) : ∀ ev ∈ fetchEvents d, ev.isStaging = false := by
  intro ev h
  simp only [fetchEvents, List.mem_append, List.mem_cons, List.mem_singleton, List.not_mem_nil,
    or_false] at h
  rcases h with (((h | h) | h) | h)
  · subst h; rfl
  · subst h; rfl
  · exact progress_not_staging _ _ h
  · subst h; rfl

theorem fetchEvents_not_converter (d : Download) :
    ∀ ev ∈ fetchEvents d, ev.isConverter = false ∧ ev.isRunWith = false := by
  intro ev h
  simp only [fetchEvents, List.mem_append, List.mem_cons, List.mem_singleton, List.not_mem_nil,
    or_false] at h
  rcases h with (((h | h) | h) | h)
  · subst h; exact ⟨rfl, rfl⟩
  · subst h; exact ⟨rfl, rfl⟩
  · obtain ⟨m, -, rfl⟩ := List.mem_map.1 h; exact ⟨rfl, rfl⟩
  · subst h; exact ⟨rfl, rfl⟩

theorem staging_not_converter (ev : Event) (h : ev.isStaging = true) :
    ev.isConverter = false ∧ ev.isRunWith = false := by
  cases ev <;> simp_all [Event.isStaging, Event.isConverter, Event.isRunWith]

/-- The enhancer failure of `Read`, on the fetch path proper. -/
theorem fetchRead_cmdRun_failure (w : World) (chapter : Chapter) (s : St) (k : Nat)
    (prog : String) (args : List String) (e : Err)
    (hk : ((fetchRead w chapter s).events.filter Event.isCmdRun)[k]?
      = some (.cmdRun prog args (some e))) :
    (fetchRead w chapter s).err = some e ∧
      (∀ ev ∈ (fetchRead w chapter s).events, ev.isConverter = false ∧ ev.isRunWith = false) ∧
      ((fetchRead w chapter s).events.filter Event.isTempFile).length = k + 1 ∧
      ((fetchRead w chapter s).events.filter Event.isCmdRun).length = k + 1 ∧
      k < (w.downloadPages (w.pagesOf chapter).2).chapter.Pages.length := by
  rcases fetchRead_cases w chapter s with ⟨e1, ch1, hp, h⟩ | ⟨pages, ch1, e1, hp, hd, h⟩ |
    ⟨pages, ch1, e1, hp, hd, hl, h⟩ | ⟨pages, ch1, hp, hd, hl, h⟩
  · rw [h] at hk; simp [Event.isCmdRun] at hk
  · rw [h] at hk
    simp [filter_isCmdRun_of_not_staging _ (fetchEvents_not_staging _)] at hk
  · rw [h] at hk ⊢
    simp only [returnDeferred, List.filter_append,
      filter_isCmdRun_of_not_staging _ (fetchEvents_not_staging _),
      filter_isCmdRun_of_not_staging _ (remove_not_staging _),
      filter_isTempFile_of_not_staging _ (fetchEvents_not_staging _),
      filter_isTempFile_of_not_staging _ (remove_not_staging _),
      List.nil_append, List.append_nil] at hk ⊢
    obtain ⟨h1, h2, h3, h4⟩ := enhanceLoop_cmdRun_failure w _ _ _ _ _ _ _ hk
    rw [hl] at h1
    refine ⟨h1, ?_, h4, h3, by rw [hp]; exact h2⟩
    intro ev hev
    rcases List.mem_append.1 hev with hev | hev
    · rcases List.mem_append.1 hev with hev | hev
      · exact fetchEvents_not_converter _ _ hev
      · exact staging_not_converter _ (enhanceLoop_staging w _ _ _ _ hev)
    · obtain ⟨m, -, rfl⟩ := List.mem_map.1 hev; exact ⟨rfl, rfl⟩
  · rw [h] at hk
    simp only [returnDeferred, List.filter_append,
      filter_isCmdRun_of_not_staging _ (fetchEvents_not_staging _),
      filter_isCmdRun_of_not_staging _ (remove_not_staging _),
      filter_isCmdRun_of_not_staging _ (fun ev h => (convertAndOpen_not_staging _ _ _ ev h).1),
      List.nil_append, List.append_nil] at hk
    obtain ⟨h1, -⟩ := enhanceLoop_cmdRun_failure w _ _ _ _ _ _ _ hk
    rw [hl] at h1
    simp at h1

/-! ## `Read` -/

/-- The three branches of `Read`: browser, downloaded shortcut, fetch. -/
theorem Read_cases (w : World) (chapter : Chapter) (s : St) :
    (w.readerReadInBrowser = true ∧
      Read w chapter s = ⟨w.startWith chapter.URL w.readerBrowser, chapter, s,
        [.startWith chapter.URL w.readerBrowser (w.startWith chapter.URL w.readerBrowser)]⟩) ∨
    (w.readerReadInBrowser = false ∧ ∃ path, w.downloaderReadDownloaded = true ∧
      w.isDownloaded chapter = true ∧ w.chapterPath chapter = .ok path ∧
      Read w chapter s = ⟨(openRead w path chapter).1, chapter, s,
        [.isDownloaded true, .chapterPath (some path)] ++ (openRead w path chapter).2⟩) ∨
    (w.readerReadInBrowser = false ∧
      ¬ (w.downloaderReadDownloaded = true ∧ w.isDownloaded chapter = true ∧
        ∃ path, w.chapterPath chapter = .ok path) ∧
      ∃ queries, (∀ q ∈ queries, q.isQuery = true) ∧
        Read w chapter s = (fetchRead w chapter s).after queries) := by
  by_cases hb : w.readerReadInBrowser = true
  · left; exact ⟨hb, by simp [Read, hb]⟩
  · right
    simp only [Bool.not_eq_true] at hb
    by_cases hd : w.downloaderReadDownloaded = true
    · by_cases hi : w.isDownloaded chapter = true
      · cases hp : w.chapterPath chapter with
        | ok path => left; exact ⟨hb, path, hd, hi, rfl, by simp [Read, hb, hd, hi, hp]⟩
        | error e =>
          right
          refine ⟨hb, by simp [hp], [.isDownloaded true, .chapterPath none], ?_, ?_⟩
          · intro q hq
            simp at hq
            rcases hq with hq | hq <;> subst hq <;> rfl
          · simp [Read, hb, hd, hi, hp]
      · right
        refine ⟨hb, by simp [hi], [.isDownloaded false], ?_, ?_⟩
        · intro q hq
          simp at hq
          subst hq; rfl
        · simp [Read, hb, hd, hi]
    · right
      exact ⟨hb, by simp [hd], [], by simp, by simp [Read, hb, hd, Outcome.after]⟩

theorem query_not_staging (l : List Event) (h : ∀ q ∈ l, q.isQuery = true) :
    ∀ ev ∈ l, ev.isStaging = false ∧ ev.isFetch = false ∧ ev.isConverter = false ∧
      ev.isRunWith = false := by
  intro ev hev
  have := h ev hev
  cases ev <;> simp_all [Event.isQuery, Event.isStaging, Event.isFetch, Event.isConverter,
    Event.isRunWith]

/-- C1: when the enhancer run for page `k + 1` (the run number `k`, counted
from 0, of `UpscaleImage`) fails with error `e`, `Read` returns that error, no
call of the converter (`Get`, `SaveTemp`) and no launch of a reader is made,
and exactly `k + 1` pages have been staged and `k + 1` enhancer runs made, so
no later page is staged or enhanced; such a page `k + 1` exists among the
downloaded pages.  A failing enhancer run only happens on the fetch path. -/
theorem read_enhancer_failure_aborts (w : World) (chapter : Chapter) (s : St) (k : Nat)
    (args : List String) (e : Err)
    (hk : ((Read w chapter s).events.filter Event.isCmdRun)[k]?
      = some (.cmdRun enhancerProgram args (some e))) :
    (Read w chapter s).err = some e ∧
      (∀ ev ∈ (Read w chapter s).events, ev.isConverter = false ∧ ev.isRunWith = false) ∧
      ((Read w chapter s).events.filter Event.isTempFile).length = k + 1 ∧
      ((Read w chapter s).events.filter Event.isCmdRun).length = k + 1 ∧
      k < (w.downloadPages (w.pagesOf chapter).2).chapter.Pages.length ∧
      w.readerReadInBrowser = false := by
  rcases Read_cases w chapter s with ⟨-, h⟩ | ⟨-, path, -, -, -, h⟩ | ⟨hb, -, queries, hq, h⟩
  · rw [h] at hk; simp [Event.isCmdRun] at hk
  · rw [h] at hk
    simp [Event.isCmdRun,
      filter_isCmdRun_of_not_staging _ (fun ev h => (openRead_not_staging _ _ _ ev h).1)] at hk
  · have hq2 := query_not_staging _ hq
    rw [h] at hk ⊢
    simp only [Outcome.after, List.filter_append,
      filter_isCmdRun_of_not_staging _ (fun ev h => (hq2 ev h).1),
      filter_isTempFile_of_not_staging _ (fun ev h => (hq2 ev h).1), List.nil_append] at hk ⊢
    obtain ⟨h1, h2, h3, h4, h5⟩ := fetchRead_cmdRun_failure w chapter s k _ args e hk
    refine ⟨h1, ?_, h3, h4, h5, hb⟩
    intro ev hev
    rcases List.mem_append.1 hev with hev | hev
    · exact ⟨(hq2 ev hev).2.2.1, (hq2 ev hev).2.2.2⟩
    · exact h2 ev hev

/-- C4: with read-in-browser enabled `Read` makes exactly one call,
`open.StartWith(chapter.URL, browser)`, and returns its result unchanged; it
makes no other call (no progress report, fetch, staging, enhancer run,
conversion, presentation or history save) and leaves the chapter and the
files as they are, whatever the other settings and the download state. -/
theorem read_in_browser (w : World) (chapter : Chapter) (s : St)
    (hb : w.readerReadInBrowser = true) :
    (Read w chapter s).err = w.startWith chapter.URL w.readerBrowser ∧
      (Read w chapter s).events =
        [.startWith chapter.URL w.readerBrowser (w.startWith chapter.URL w.readerBrowser)] ∧
      (Read w chapter s).chapter = chapter ∧ (Read w chapter s).st = s := by
  simp [Read, hb]

theorem progressReports_append (l1 l2 : List Event) :
    progressReports (l1 ++ l2) = progressReports l1 ++ progressReports l2 := by
  induction l1 with
  | nil => rfl
  | cons ev rest ih => cases ev <;> simp [progressReports, ih]

theorem progressReports_queries (l : List Event) (h : ∀ q ∈ l, q.isQuery = true) :
    progressReports l = [] := by
  induction l with
  | nil => rfl
  | cons ev rest ih =>
    have h1 := h ev (List.mem_cons_self _ _)
    have h2 := ih (fun q hq => h q (List.mem_cons_of_mem _ hq))
    cases ev <;> simp_all [progressReports, Event.isQuery]

theorem fetchRead_events_head (w : World) (chapter : Chapter) (s : St) :
    ∃ pe rest, (fetchRead w chapter s).events = .progress "Getting pages" :: .pagesOf pe :: rest := by
  rcases fetchRead_cases w chapter s with ⟨e1, ch1, hp, h⟩ | ⟨pages, ch1, e1, hp, hd, h⟩ |
    ⟨pages, ch1, e1, hp, hd, hl, h⟩ | ⟨pages, ch1, hp, hd, hl, h⟩
  · exact ⟨_, _, by rw [h]⟩
  · exact ⟨none, (fetchRead w chapter s).events.drop 2, by rw [h]; simp [fetchEvents]⟩
  · exact ⟨none, (fetchRead w chapter s).events.drop 2, by
      rw [h]; simp [returnDeferred, fetchEvents]⟩
  · exact ⟨none, (fetchRead w chapter s).events.drop 2, by
      rw [h]; simp [returnDeferred, fetchEvents]⟩

/-- C5: with read-in-browser disabled, `Read` takes the downloaded shortcut
exactly when read-downloaded is enabled, `chapter.IsDownloaded()` is true and
`chapter.Path(false)` succeeds.  Then it calls `openRead` with the resolved
path and returns its result, with no call of the source, no staging or
enhancement and no conversion.  In every other case (also when the path
resolution fails) `Read` is the normal fetch: after the questions to the
chapter its first calls are the report "Getting pages" and `PagesOf`, and its
result is the result of that fetch. -/
theorem read_downloaded_shortcut (w : World) (chapter : Chapter) (s : St)
    (hb : w.readerReadInBrowser = false) :
    (∀ path, w.downloaderReadDownloaded = true → w.isDownloaded chapter = true →
        w.chapterPath chapter = .ok path →
        (Read w chapter s).err = (openRead w path chapter).1 ∧
        (Read w chapter s).events
          = [.isDownloaded true, .chapterPath (some path)] ++ (openRead w path chapter).2 ∧
        (∀ ev ∈ (Read w chapter s).events,
          ev.isFetch = false ∧ ev.isStaging = false ∧ ev.isConverter = false) ∧
        (Read w chapter s).chapter = chapter ∧ (Read w chapter s).st = s) ∧
    (¬ (w.downloaderReadDownloaded = true ∧ w.isDownloaded chapter = true ∧
        ∃ path, w.chapterPath chapter = .ok path) →
      ∃ queries pe rest, (∀ q ∈ queries, q.isQuery = true) ∧
        (Read w chapter s).events
          = queries ++ .progress "Getting pages" :: .pagesOf pe :: rest ∧
        (progressReports (Read w chapter s).events).head? = some "Getting pages" ∧
        Read w chapter s = (fetchRead w chapter s).after queries) := by
  constructor
  · intro path hd hi hp
    rcases Read_cases w chapter s with ⟨hb1, -⟩ | ⟨-, path1, -, -, hp1, h⟩ | ⟨-, hn, -⟩
    · rw [hb] at hb1; simp at hb1
    · rw [hp] at hp1
      simp only [Except.ok.injEq] at hp1
      subst hp1
      rw [h]
      refine ⟨rfl, rfl, ?_, rfl, rfl⟩
      intro ev hev
      simp only [List.cons_append, List.nil_append, List.mem_cons] at hev
      rcases hev with hev | hev | hev
      · subst hev; exact ⟨rfl, rfl, rfl⟩
      · subst hev; exact ⟨rfl, rfl, rfl⟩
      · have := openRead_not_staging w path chapter ev hev
        exact ⟨this.2.1, this.1, this.2.2⟩
    · exact absurd ⟨hd, hi, path, hp⟩ hn
  · intro hn
    rcases Read_cases w chapter s with ⟨hb1, -⟩ | ⟨-, path1, hd, hi, hp1, -⟩ | ⟨-, -, queries, hq, h⟩
    · rw [hb] at hb1; simp at hb1
    · exact absurd ⟨hd, hi, path1, hp1⟩ hn
    · obtain ⟨pe, rest, hr⟩ := fetchRead_events_head w chapter s
      refine ⟨queries, pe, rest, hq, by rw [h]; simp [Outcome.after, hr], ?_, h⟩
      rw [h]
      simp [Outcome.after, hr, progressReports_append, progressReports_queries _ hq,
        progressReports]

/-- C3: round trip of the staging store.  When `bufferToFile` succeeds with
path `p` for a buffer holding the unread bytes `buf`, and the file at `p` is
the same when it is read, `fileToBuffer(p)` succeeds and returns exactly
`buf`; the empty buffer is included. -/
theorem staging_round_trip (w : World) (buf : Bytes) (extension : String) (s s1 s2 : St)
    (p : String) (buf1 : Bytes) (evs : List Event)
    (h : bufferToFile w buf extension s = (.ok p, buf1, s1, evs))
    (hsame : fsRead s2.fs p = fsRead s1.fs p) :
    (fileToBuffer p s2).1 = .ok buf := by
  obtain ⟨hr, -, -⟩ := bufferToFile_ok _ _ _ _ _ _ _ _ h
  simp [fileToBuffer, hsame, hr]

/-- C9: `openRead` launches exactly one program, by
`open.RunWith(path, reader)`; the reader is the one configured for the active
format when that is pdf, cbz, zip or plain, and the empty string for any other
format (no error); it reports "Opening <reader>" for a reader that is not
empty and "Opening" otherwise; it returns nil exactly when the launch
succeeds; on a failed launch its error message is "could not open <path> with
<reader>: <error>", which holds the path and the reader name; and the
returned error is the same whatever the history-on-read setting is and
whatever `history.Save` returns. -/
theorem openRead_contract (w : World) (path : String) (chapter : Chapter) :
    (openRead w path chapter).2.filter Event.isRunWith
        = [.runWith path (readerFor w) (w.runWith path (readerFor w))] ∧
      (w.formatsUse = FormatPDF → readerFor w = w.readerPDF) ∧
      (w.formatsUse = FormatCBZ → readerFor w = w.readerCBZ) ∧
      (w.formatsUse = FormatZIP → readerFor w = w.readerZIP) ∧
      (w.formatsUse = FormatPlain → readerFor w = w.raderPlain) ∧
      (w.formatsUse ∉ [FormatPDF, FormatCBZ, FormatZIP, FormatPlain] → readerFor w = "") ∧
      progressReports (openRead w path chapter).2
        = [if readerFor w ≠ "" then "Opening " ++ readerFor w else "Opening"] ∧
      ((openRead w path chapter).1 = none ↔ w.runWith path (readerFor w) = none) ∧
      (∀ e, w.runWith path (readerFor w) = some e →
        (openRead w path chapter).1
          = some ("could not open " ++ path ++ " with " ++ readerFor w ++ ": " ++ e)) ∧
      (∀ (b : Bool) (f : Chapter → Option Err),
        (openRead { w with historySaveOnRead := b, historySave := f } path chapter).1
          = (openRead w path chapter).1) := by
  refine ⟨?_, ?_, ?_, ?_, ?_, ?_, ?_, ?_, ?_, ?_⟩
  · rw [openRead_events]
    by_cases hh : w.historySaveOnRead = true <;> simp [hh, Event.isRunWith]
  · intro h; simp [readerFor, h]
  · intro h; simp [readerFor, h, FormatPDF, FormatCBZ]
  · intro h; simp [readerFor, h, FormatPDF, FormatCBZ, FormatZIP]
  · intro h; simp [readerFor, h, FormatPDF, FormatCBZ, FormatZIP, FormatPlain]
  · intro h
    simp only [List.mem_cons, List.mem_singleton, List.not_mem_nil, or_false, not_or] at h
    simp [readerFor, h.1, h.2.1, h.2.2.1, h.2.2.2]
  · rw [openRead_events]
    by_cases hh : w.historySaveOnRead = true <;> simp [hh, progressReports]
  · simp only [openRead]
    split <;> rename_i hr <;> simp [hr]
  · intro e he
    simp only [openRead]
    simp [he]
  · intro b f
    simp only [openRead, readerFor]
    split <;> rename_i hr <;> simp [hr]

theorem saveTemp_not_mem (l : List Event) (h : ∀ ev ∈ l, ev.isConverter = false)
    (saved : Chapter) (path : Option String) : Event.saveTemp saved path ∉ l := by
  intro hm
  have := h _ hm
  simp [Event.isConverter] at this

/-- C6: whenever `Read` calls the converter's `SaveTemp`, the chapter it
passes holds the downloaded pages in their number and order, each with its
`Contents` replaced by the bytes read back for that page: `staged` gives per
page the staged input path and these bytes, which are the contents of the
file at the derived output path after a successful enhancer run on that
input.  The staging, enhancer and read-back calls of all pages, in page order,
come before the `SaveTemp` call, and no other such call is made; the chapter
that `Read` leaves is the one passed. -/
theorem conversion_sees_enhanced_pages (w : World) (chapter : Chapter) (s : St) (saved : Chapter)
    (path : Option String) (hsave : Event.saveTemp saved path ∈ (Read w chapter s).events) :
    ∃ staged : List (String × Bytes),
      staged.length = (w.downloadPages (w.pagesOf chapter).2).chapter.Pages.length ∧
      saved.Pages = List.zipWith (fun p x => { p with Contents := x.2 })
        (w.downloadPages (w.pagesOf chapter).2).chapter.Pages staged ∧
      (∀ x ∈ staged, ∃ sb, (UpscaleImage w x.1 (outputPathOf x.1) sb).1 = none ∧
        fsRead (UpscaleImage w x.1 (outputPathOf x.1) sb).2.1.fs (outputPathOf x.1) = some x.2) ∧
      (Read w chapter s).chapter = saved ∧
      ∃ before after, (Read w chapter s).events
          = before ++ (List.zipWith (fun p x => stagedEvents p.Extension x.1 x.2)
              (w.downloadPages (w.pagesOf chapter).2).chapter.Pages staged).flatten ++ after ∧
        (∀ ev ∈ before, ev.isStaging = false) ∧ (∀ ev ∈ after, ev.isStaging = false) ∧
        Event.saveTemp saved path ∈ after := by
  rcases Read_cases w chapter s with ⟨-, h⟩ | ⟨-, p, -, -, -, h⟩ | ⟨-, -, queries, hq, h⟩
  · rw [h] at hsave; simp at hsave
  · rw [h] at hsave
    simp only [List.cons_append, List.nil_append, List.mem_cons] at hsave
    rcases hsave with hsave | hsave | hsave
    · simp at hsave
    · simp at hsave
    · exact absurd hsave
        (saveTemp_not_mem _ (fun ev hev => (openRead_not_staging w p chapter ev hev).2.2) _ _)
  · have hq2 := query_not_staging _ hq
    rw [h] at hsave ⊢
    simp only [Outcome.after] at hsave ⊢
    rcases List.mem_append.1 hsave with hsave | hsave
    · exact absurd hsave (saveTemp_not_mem _ (fun ev hev => (hq2 ev hev).2.2.1) _ _)
    · rcases fetchRead_cases w chapter s with ⟨e1, ch1, hp, h⟩ | ⟨pages, ch1, e1, hp, hd, h⟩ |
        ⟨pages, ch1, e1, hp, hd, hl, h⟩ | ⟨pages, ch1, hp, hd, hl, h⟩
      · rw [h] at hsave; simp at hsave
      · rw [h] at hsave
        exact absurd hsave
          (saveTemp_not_mem _ (fun ev hev => (fetchEvents_not_converter _ ev hev).1) _ _)
      · rw [h] at hsave
        simp only [returnDeferred, List.mem_append] at hsave
        rcases hsave with (hsave | hsave) | hsave
        · exact absurd hsave
            (saveTemp_not_mem _ (fun ev hev => (fetchEvents_not_converter _ ev hev).1) _ _)
        · exact absurd hsave (saveTemp_not_mem _
            (fun ev hev => (staging_not_converter _ (enhanceLoop_staging w _ _ _ ev hev)).1) _ _)
        · obtain ⟨m, -, hm⟩ := List.mem_map.1 hsave; simp at hm
      · rw [h] at hsave ⊢
        simp only [returnDeferred, List.mem_append] at hsave ⊢
        obtain ⟨staged, hlen, hpages, hev, -, hx⟩ := enhanceLoop_ok w _ s [] hl
        have hconv : Event.saveTemp saved path ∈ (convertAndOpen w pages
            { (w.downloadPages ch1).chapter with
              Pages := (enhanceLoop w (w.downloadPages ch1).chapter.Pages s []).pages }).2 := by
          rcases hsave with ((hsave | hsave) | hsave) | hsave
          · exact absurd hsave
              (saveTemp_not_mem _ (fun ev hev => (fetchEvents_not_converter _ ev hev).1) _ _)
          · exact absurd hsave (saveTemp_not_mem _
              (fun ev hev => (staging_not_converter _ (enhanceLoop_staging w _ _ _ ev hev)).1) _ _)
          · exact hsave
          · obtain ⟨m, -, hm⟩ := List.mem_map.1 hsave; simp at hm
        have hsaved := convertAndOpen_saveTemp _ _ _ _ _ hconv
        subst hsaved
        rw [hp]
        refine ⟨staged, hlen, hpages, hx, rfl, queries ++ fetchEvents (w.downloadPages ch1),
          (convertAndOpen w pages { (w.downloadPages ch1).chapter with
              Pages := (enhanceLoop w (w.downloadPages ch1).chapter.Pages s []).pages }).2
            ++ List.map Event.remove (enhanceLoop w (w.downloadPages ch1).chapter.Pages s []).defers,
          ?_, ?_, ?_, ?_⟩
        · rw [hev]; simp only [List.append_assoc]
        · intro ev hev
          rcases List.mem_append.1 hev with hev | hev
          · exact (hq2 ev hev).1
          · exact fetchEvents_not_staging _ ev hev
        · intro ev hev
          rcases List.mem_append.1 hev with hev | hev
          · exact (convertAndOpen_not_staging _ _ _ ev hev).1
          · exact remove_not_staging _ ev hev
        · exact List.mem_append_left _ hconv

theorem enhanceLoop_tempFile_first (w : World) (page : Page) (rest : List Page) (s : St)
    (ds : List String) : ∃ ev ∈ (enhanceLoop w (page :: rest) s ds).events, ev.isTempFile = true := by
  rcases enhanceLoop_cons w page rest s ds with ⟨e, -, h2, -⟩ | ⟨e, n, -, h2, -⟩ |
    ⟨e, n, -, h2, -⟩ | ⟨e, n, -, h2, -⟩ | ⟨inp, data, s1, s2, -, -, -, h2⟩ <;>
    · rw [h2]
      exact ⟨_, List.mem_cons_self _ _, rfl⟩

theorem convertAndOpen_ok (w : World) (pages : List Page) (chapter : Chapter)
    (h : (convertAndOpen w pages chapter).1 = none) :
    ∃ path, w.saveTemp w.formatsUse chapter = .ok path ∧ (openRead w path chapter).1 = none ∧
      (convertAndOpen w pages chapter).2 =
        [.converterGet w.formatsUse none, .progress (convertingMessage w pages chapter),
          .saveTemp chapter (some path)] ++ (openRead w path chapter).2 ++ [.progress "Done"] := by
  unfold convertAndOpen at h ⊢
  split at h
  · simp at h
  · split at h
    · simp at h
    · rename_i path hs
      split at h
      · simp at h
      · rename_i ev2 hop
        refine ⟨path, hs, by rw [hop], ?_⟩
        simp [hop]

/-- The fetch path of `Read` once page listing and download have succeeded:
the page loop runs and either ends in an error or is followed by conversion
and presentation. -/
theorem Read_fetch (w : World) (chapter : Chapter) (s : St) (pages : List Page) (ch1 : Chapter)
    (hb : w.readerReadInBrowser = false)
    (hs : ¬ (w.downloaderReadDownloaded = true ∧ w.isDownloaded chapter = true ∧
      ∃ path, w.chapterPath chapter = .ok path))
    (hp : w.pagesOf chapter = (.ok pages, ch1)) (hd : (w.downloadPages ch1).err = none) :
    ∃ queries, (∀ q ∈ queries, q.isQuery = true) ∧
      (((enhanceLoop w (w.downloadPages ch1).chapter.Pages s []).err ≠ none ∧
        Read w chapter s = (returnDeferred (enhanceLoop w (w.downloadPages ch1).chapter.Pages s [])
          { (w.downloadPages ch1).chapter with
            Pages := (enhanceLoop w (w.downloadPages ch1).chapter.Pages s []).pages }
          (enhanceLoop w (w.downloadPages ch1).chapter.Pages s []).err
          (fetchEvents (w.downloadPages ch1)
            ++ (enhanceLoop w (w.downloadPages ch1).chapter.Pages s []).events)).after queries) ∨
      ((enhanceLoop w (w.downloadPages ch1).chapter.Pages s []).err = none ∧
        Read w chapter s = (returnDeferred (enhanceLoop w (w.downloadPages ch1).chapter.Pages s [])
          { (w.downloadPages ch1).chapter with
            Pages := (enhanceLoop w (w.downloadPages ch1).chapter.Pages s []).pages }
          (convertAndOpen w pages { (w.downloadPages ch1).chapter with
            Pages := (enhanceLoop w (w.downloadPages ch1).chapter.Pages s []).pages }).1
          (fetchEvents (w.downloadPages ch1)
            ++ (enhanceLoop w (w.downloadPages ch1).chapter.Pages s []).events
            ++ (convertAndOpen w pages { (w.downloadPages ch1).chapter with
              Pages := (enhanceLoop w (w.downloadPages ch1).chapter.Pages s []).pages }).2)).after
            queries)) := by
  rcases Read_cases w chapter s with ⟨hb1, -⟩ | ⟨-, p, h1, h2, h3, -⟩ | ⟨-, -, queries, hq, h⟩
  · rw [hb] at hb1; simp at hb1
  · exact absurd ⟨h1, h2, p, h3⟩ hs
  · refine ⟨queries, hq, ?_⟩
    rcases fetchRead_cases w chapter s with ⟨e1, c1, hp1, -⟩ | ⟨pg, c1, e1, hp1, hd1, -⟩ |
      ⟨pg, c1, e1, hp1, hd1, hl, hf⟩ | ⟨pg, c1, hp1, hd1, hl, hf⟩
    · rw [hp] at hp1; simp at hp1
    · rw [hp] at hp1
      simp only [Prod.mk.injEq, Except.ok.injEq] at hp1
      obtain ⟨-, rfl⟩ := hp1
      rw [hd] at hd1; simp at hd1
    · rw [hp] at hp1
      simp only [Prod.mk.injEq, Except.ok.injEq] at hp1
      obtain ⟨rfl, rfl⟩ := hp1
      left
      exact ⟨by rw [hl]; simp, by rw [h, hf, hl]⟩
    · rw [hp] at hp1
      simp only [Prod.mk.injEq, Except.ok.injEq] at hp1
      obtain ⟨rfl, rfl⟩ := hp1
      right
      exact ⟨hl, by rw [h, hf]⟩

/-- C8, as amended: enhancement is not conditional.  On the fetch path, once
page listing and download have succeeded, `Read` stages the first page
whenever the chapter has a page, under every configuration.  When `Read`
returns nil it has made, in order: the fetch (`PagesOf`, `DownloadPages`), for
every page in page order the staging, the enhancer run and the read-back,
then converter `Get` and `SaveTemp` on the enhanced chapter, the launch of the
reader with the artifact path, the report "Done", and the removal of the
temporary files.  When the enhancer program is unavailable and the chapter
has a page, `Read` returns an error and neither converts nor launches a
reader. -/
theorem read_always_enhances (w : World) (chapter : Chapter) (s : St) (pages : List Page)
    (ch1 : Chapter) (hb : w.readerReadInBrowser = false)
    (hs : ¬ (w.downloaderReadDownloaded = true ∧ w.isDownloaded chapter = true ∧
      ∃ path, w.chapterPath chapter = .ok path))
    (hp : w.pagesOf chapter = (.ok pages, ch1)) (hd : (w.downloadPages ch1).err = none) :
    ((w.downloadPages ch1).chapter.Pages ≠ [] →
      ∃ ev ∈ (Read w chapter s).events, ev.isTempFile = true) ∧
    ((Read w chapter s).err = none →
      ∃ (queries : List Event) (staged : List (String × Bytes)) (path : String),
        (∀ q ∈ queries, q.isQuery = true) ∧
        staged.length = (w.downloadPages ch1).chapter.Pages.length ∧
        (Read w chapter s).chapter = { (w.downloadPages ch1).chapter with
          Pages := List.zipWith (fun p x => { p with Contents := x.2 })
            (w.downloadPages ch1).chapter.Pages staged } ∧
        (Read w chapter s).events = queries ++ fetchEvents (w.downloadPages ch1)
          ++ (List.zipWith (fun p x => stagedEvents p.Extension x.1 x.2)
              (w.downloadPages ch1).chapter.Pages staged).flatten
          ++ [.converterGet w.formatsUse none,
              .progress (convertingMessage w pages (Read w chapter s).chapter),
              .saveTemp (Read w chapter s).chapter (some path)]
          ++ (openRead w path (Read w chapter s).chapter).2 ++ [.progress "Done"]
          ++ (staged.reverse.flatMap fun x => [outputPathOf x.1, x.1]).map Event.remove) ∧
    ((∀ args fs, (w.exec enhancerProgram args fs).2 ≠ none) →
      (w.downloadPages ch1).chapter.Pages ≠ [] →
      (Read w chapter s).err ≠ none ∧
        ∀ ev ∈ (Read w chapter s).events, ev.isConverter = false ∧ ev.isRunWith = false) := by
  obtain ⟨queries, hq, hr⟩ := Read_fetch w chapter s pages ch1 hb hs hp hd
  have hq2 := query_not_staging _ hq
  refine ⟨?_, ?_, ?_⟩
  · intro hne
    obtain ⟨page, rest, hpr⟩ := List.exists_cons_of_ne_nil hne
    obtain ⟨ev, hev, ht⟩ := enhanceLoop_tempFile_first w page rest s []
    rw [← hpr] at hev
    refine ⟨ev, ?_, ht⟩
    rcases hr with ⟨-, h⟩ | ⟨-, h⟩ <;> rw [h] <;>
      simp only [Outcome.after, returnDeferred, List.mem_append] <;> tauto
  · intro hnone
    rcases hr with ⟨hl, h⟩ | ⟨hl, h⟩
    · rw [h] at hnone
      exact absurd hnone hl
    · rw [h] at hnone ⊢
      simp only [Outcome.after, returnDeferred] at hnone ⊢
      obtain ⟨staged, hlen, hpages, hev, hdef, -⟩ := enhanceLoop_ok w _ s [] hl
      obtain ⟨path, -, -, hc⟩ := convertAndOpen_ok _ _ _ hnone
      refine ⟨queries, staged, path, hq, hlen, by rw [hpages], ?_⟩
      rw [hc, hev, hdef]
      simp only [List.append_assoc, List.append_nil]
  · intro hun hne
    rcases hr with ⟨hl, h⟩ | ⟨hl, h⟩
    · rw [h]
      refine ⟨hl, ?_⟩
      intro ev hev
      simp only [Outcome.after, returnDeferred, List.mem_append] at hev
      rcases hev with hev | (hev | hev) | hev
      · exact ⟨(hq2 ev hev).2.2.1, (hq2 ev hev).2.2.2⟩
      · exact fetchEvents_not_converter _ ev hev
      · exact staging_not_converter _ (enhanceLoop_staging w _ _ _ ev hev)
      · obtain ⟨m, -, rfl⟩ := List.mem_map.1 hev; exact ⟨rfl, rfl⟩
    · exfalso
      obtain ⟨staged, hlen, -, -, -, hx⟩ := enhanceLoop_ok w _ s [] hl
      obtain ⟨page, rest, hpr⟩ := List.exists_cons_of_ne_nil hne
      rw [hpr] at hlen
      cases staged with
      | nil => simp at hlen
      | cons x xs =>
        obtain ⟨sb, h1, -⟩ := hx x (List.mem_cons_self _ _)
        exact hun _ _ h1

/-! ## Evaluations on concrete worlds -/

/-- Witness of C1: the enhancer of `failWorld` fails on page 2 of 3. -/
theorem read_enhancer_failure_aborts_witness :
    ((Read failWorld chapter3 st0).events.filter Event.isCmdRun)[1]?
        = some (.cmdRun enhancerProgram
          (enhancerArgs "/tmp/page-1.png" "/tmp/page-1.png_upscaled..jpeg") (some "exit status 1")) ∧
      (Read failWorld chapter3 st0).err = some "exit status 1" ∧
      ((Read failWorld chapter3 st0).events.filter Event.isTempFile).length = 1 + 1 :=
  ⟨by decide,
    (read_enhancer_failure_aborts failWorld chapter3 st0 1
      (enhancerArgs "/tmp/page-1.png" "/tmp/page-1.png_upscaled..jpeg") "exit status 1"
      (by decide)).1,
    (read_enhancer_failure_aborts failWorld chapter3 st0 1
      (enhancerArgs "/tmp/page-1.png" "/tmp/page-1.png_upscaled..jpeg") "exit status 1"
      (by decide)).2.2.1⟩

/-- Witness of C3: a buffer of three bytes and the empty buffer. -/
theorem staging_round_trip_witness :
    (bufferToFile okWorld [1, 2, 3] "png" st0).1 = .ok "/tmp/page-0.png" ∧
      (fileToBuffer "/tmp/page-0.png" (bufferToFile okWorld [1, 2, 3] "png" st0).2.2.1).1
        = .ok [1, 2, 3] ∧
      (fileToBuffer "/tmp/page-0.png" (bufferToFile okWorld [] "png" st0).2.2.1).1 = .ok [] :=
  ⟨rfl,
    staging_round_trip okWorld [1, 2, 3] "png" st0 _ _ "/tmp/page-0.png" _ _
      (rfl : bufferToFile okWorld [1, 2, 3] "png" st0
        = (.ok "/tmp/page-0.png", [], ⟨[("/tmp/page-0.png", [1, 2, 3])], 1⟩,
          [.tempFile "page-*.png" (some "/tmp/page-0.png"), .writeTo "/tmp/page-0.png" none]))
      rfl,
    staging_round_trip okWorld [] "png" st0 _ _ "/tmp/page-0.png" _ _
      (rfl : bufferToFile okWorld [] "png" st0
        = (.ok "/tmp/page-0.png", [], ⟨[("/tmp/page-0.png", [])], 1⟩,
          [.tempFile "page-*.png" (some "/tmp/page-0.png"), .writeTo "/tmp/page-0.png" none]))
      rfl⟩

/-- Witness of C4: the browser branch on the chapter of three pages. -/
theorem read_in_browser_witness :
    browserWorld.readerReadInBrowser = true ∧
      (Read browserWorld chapter3 st0).events
        = [.startWith "http://example.org/ch" "firefox" none] :=
  ⟨rfl, (read_in_browser browserWorld chapter3 st0 rfl).2.1⟩

/-- Witness of C5: the downloaded shortcut on the chapter of three pages. -/
theorem read_downloaded_shortcut_witness :
    shortcutWorld.readerReadInBrowser = false ∧
      (Read shortcutWorld chapter3 st0).events
        = [.isDownloaded true, .chapterPath (some "/downloads/ch.cbz")]
          ++ (openRead shortcutWorld "/downloads/ch.cbz" chapter3).2 :=
  ⟨rfl, ((read_downloaded_shortcut shortcutWorld chapter3 st0 rfl).1 "/downloads/ch.cbz"
    rfl rfl rfl).2.1⟩

/-- Witness of C6: the read of three pages in which everything succeeds. -/
theorem conversion_sees_enhanced_pages_witness :
    Event.saveTemp ⟨"ch", "http://example.org/ch", [⟨[7], "jpeg"⟩, ⟨[7], "png"⟩, ⟨[7], "jpeg"⟩]⟩
        (some "/tmp/chapter.cbz") ∈ (Read okWorld chapter3 st0).events ∧
      (Read okWorld chapter3 st0).chapter
        = ⟨"ch", "http://example.org/ch", [⟨[7], "jpeg"⟩, ⟨[7], "png"⟩, ⟨[7], "jpeg"⟩]⟩ :=
  ⟨by decide,
    match conversion_sees_enhanced_pages okWorld chapter3 st0
      ⟨"ch", "http://example.org/ch", [⟨[7], "jpeg"⟩, ⟨[7], "png"⟩, ⟨[7], "jpeg"⟩]⟩
      (some "/tmp/chapter.cbz") (by decide) with
    | ⟨_, _, _, _, h, _⟩ => h⟩

/-- Witness of C8 as amended: without the enhancer program the read of three
pages fails before conversion. -/
theorem read_always_enhances_witness :
    noEnhancerWorld.readerReadInBrowser = false ∧
      noEnhancerWorld.pagesOf chapter3 = (.ok chapter3.Pages, chapter3) ∧
      (noEnhancerWorld.downloadPages chapter3).err = none ∧
      (Read noEnhancerWorld chapter3 st0).err ≠ none :=
  ⟨rfl, rfl, rfl,
    ((read_always_enhances noEnhancerWorld chapter3 st0 chapter3.Pages chapter3 rfl
      (fun h => absurd h.1 (by decide)) rfl rfl).2.2 (fun _ _ => by simp [noEnhancerWorld]) (by decide)).1⟩

/-- C8, the claim as stated fails: there is no setting that disables
enhancement.  In the scenario of the claim (3 pages, format "cbz", reader
"foo", every collaborator succeeding) `Read` stages and enhances every page
and replaces the downloaded contents; and with the enhancer program
unavailable the read does not succeed. -/
theorem read_enhancement_not_conditional :
    okWorld.formatsUse = "cbz" ∧ readerFor okWorld = "foo" ∧
      ((Read okWorld chapter3 st0).events.filter Event.isTempFile).length = 3 ∧
      ((Read okWorld chapter3 st0).events.filter Event.isCmdRun).length = 3 ∧
      ((Read okWorld chapter3 st0).events.filter Event.isReadFile).length = 3 ∧
      (Read okWorld chapter3 st0).chapter.Pages ≠ chapter3.Pages ∧
      (Read noEnhancerWorld chapter3 st0).err = some "executable file not found" ∧
      progressReports (Read noEnhancerWorld chapter3 st0).events = ["Getting pages", "Downloading"] := by
  decide

/-- C2, failing inputs: a temporary file outlives `Read`.  With an enhancer
that writes its output file and exits non-zero the output file is left; when
the write of `bufferToFile` fails the created input file is left.  On the
successful read no file is left. -/
theorem read_leaves_temporary_files :
    st0.fs = [] ∧
      (Read leakWorld chapter1 st0).err = some "exit status 1" ∧
      (Read leakWorld chapter1 st0).st.fs = [("/tmp/page-0_upscaled..jpeg", [7])] ∧
      (Read fullDiskWorld chapter1 st0).err = some "no space left on device" ∧
      (Read fullDiskWorld chapter1 st0).st.fs = [("/tmp/page-0.jpeg", [])] ∧
      (Read okWorld chapter3 st0).st.fs = [] := by
  decide

/-- C7, failing input: on the downloaded shortcut `Read` returns nil after a
successful presentation and the only progress report is "Opening foo"; the
fetch path ends with "Done". -/
theorem read_shortcut_reports_no_done :
    (Read shortcutWorld chapter3 st0).err = none ∧
      progressReports (Read shortcutWorld chapter3 st0).events = ["Opening foo"] ∧
      (progressReports (Read okWorld chapter3 st0).events).getLast? = some "Done" := by
  decide

/-- C10, failing input: for a page extension other than "jpeg" the input's
extension stays in the derived output path, before the marker. -/
theorem outputPathOf_keeps_other_extension :
    outputPathOf ("/tmp/page-1" ++ "." ++ "png") = "/tmp/page-1.png_upscaled..jpeg" ∧
      outputPathOf ("/tmp/page-1" ++ "." ++ "jpeg") = "/tmp/page-1_upscaled..jpeg" := by
  decide

end Downloader
